import Mathlib

/-!
Verification of the remote/refspec subsystem of pygit2 (remote.c, refspec.c).

The binding layer in the sources is embedded shallowly: strings handled by
the refspec engine are lists of characters, libgit2 error codes are integers,
and the stateful network exchange of `Remote_fetch` / `Remote_push` is modelled
as a function of an environment that records the outcome of each external
(libgit2 / CPython) call, returning both the final outcome and a trace of the
observable effects (refspecs added to the push batch, disconnect count).

Parts of the behaviour live in libgit2 rather than in the binding sources
(refspec parsing, the wildcard transform and the push status iteration); those
definitions are marked `Modelled from the spec:` and follow the specification
text for the corresponding collaborator interface.
-/

set_option autoImplicit false

namespace Pygit2

/-! ### libgit2 error codes -/

def GIT_OK : Int := 0

def GIT_ERROR : Int := -1

def GIT_ENOTFOUND : Int := -3

def GIT_EUSER : Int := -7

/-! ### Refspec engine (refspec.c plus spec-modelled libgit2 internals)

Strings are embedded as lists of characters, matching the byte-level view the
C code takes of them. -/

abbrev Str := List Char

/-- Split a string at the first occurrence of the character `c`: returns the
part before and the part after, or `none` when `c` does not occur. -/
def splitOnce (c : Char) : Str → Option (Str × Str)
  | [] => none
  | a :: rest =>
    if a = c then some ([], rest)
    else (splitOnce c rest).map (fun p => (a :: p.1, p.2))

/-- A one-wildcard pattern `pre*suf`, stored as the text before and after
the `*`. -/
structure WildPat where
  pre : Str
  suf : Str
deriving DecidableEq, Repr

/-- Modelled from the spec: the wildcard match of libgit2's refspec engine
(absent from src).  A name matches `pre*suf` when it starts with `pre` and the
remainder ends with `suf`; the capture is the middle part, determined by the
lengths of `pre` and `suf`. -/
def wmatch (p : WildPat) (n : Str) : Option Str :=
  if h : p.pre <+: n ∧ p.suf <:+ n.drop p.pre.length then
    some ((n.drop p.pre.length).take ((n.drop p.pre.length).length - p.suf.length))
  else none

/-- The two sides of a refspec, which libgit2 requires to be both plain or
both single-wildcard patterns. -/
inductive RSpecPats where
  | plain (s d : Str)
  | wild (ps pd : WildPat)
deriving DecidableEq, Repr

/-- Compile a source and destination pattern string into `RSpecPats`,
splitting each side at its first `*`; fails when one side has a wildcard and
the other does not. -/
def mkPats (src dst : Str) : Option RSpecPats :=
  match splitOnce '*' src, splitOnce '*' dst with
  | none, none => some (RSpecPats.plain src dst)
  | some sp, some dp => some (RSpecPats.wild ⟨sp.1, sp.2⟩ ⟨dp.1, dp.2⟩)
  | _, _ => none

/-- Modelled from the spec: libgit2's `git_refspec_transform` (absent from
src) — substitute the wildcard capture taken from the source side into the
destination pattern; for plain refspecs the name must equal the source. -/
def transform : RSpecPats → Str → Option Str
  | RSpecPats.plain s d, n => if n = s then some d else none
  | RSpecPats.wild ps pd, n => (wmatch ps n).map (fun mid => pd.pre ++ mid ++ pd.suf)

/-- Modelled from the spec: libgit2's `git_refspec_rtransform` (absent from
src) — the inverse direction, matching against the destination pattern and
emitting through the source pattern. -/
def rtransform : RSpecPats → Str → Option Str
  | RSpecPats.plain s d, n => if n = d then some s else none
  | RSpecPats.wild ps pd, n => (wmatch pd n).map (fun mid => ps.pre ++ mid ++ ps.suf)

/-- Modelled from the spec: `git_refspec_dst_matches` — whether a reference
name matches the shape of the destination pattern. -/
def dstMatches : RSpecPats → Str → Bool
  | RSpecPats.plain _ d, n => n = d
  | RSpecPats.wild _ pd, n => (wmatch pd n).isSome

/-- Embedding of `Refspec_transform` (refspec.c): allocates an output buffer
of `strlen(dst) + strlen(name) + 1` bytes and runs the underlying transform,
which fails if the result (with its NUL terminator) would not fit. -/
def Refspec_transform (src dst name : Str) : Option Str :=
  let outlen := dst.length + name.length + 1
  (mkPats src dst).bind fun p =>
    (transform p name).bind fun out =>
      if out.length + 1 ≤ outlen then some out else none

/-- Embedding of `Refspec_rtransform` (refspec.c): the buffer is sized from
the source pattern instead. -/
def Refspec_rtransform (src dst name : Str) : Option Str :=
  let outlen := src.length + name.length + 1
  (mkPats src dst).bind fun p =>
    (rtransform p name).bind fun out =>
      if out.length + 1 ≤ outlen then some out else none

/-! ### Parsed refspecs and the remote fetchspec accessors (remote.c) -/

/-- A parsed refspec as libgit2 stores it: the original string together with
the source pattern, destination pattern and force flag. -/
structure GRefspec where
  string : Str
  src : Str
  dst : Str
  force : Bool
deriving DecidableEq, Repr

/-- Strip an optional leading `+` from a refspec string, reporting whether it
was present (the force flag). -/
def stripPlus (s : Str) : Bool × Str :=
  match s with
  | c :: r => if c = '+' then (true, r) else (false, s)
  | [] => (false, s)

/-- Modelled from the spec: libgit2's refspec parser behind
`git_remote_set_fetchspec` (absent from src).  The canonical form is
`[+]source:destination` — an optional leading `+` sets the force flag, the
remainder splits at its single `:`, and both sides must be non-empty. -/
def parseRefspec (s : Str) : Option GRefspec :=
  match splitOnce ':' (stripPlus s).2 with
  | some p =>
    if p.1 ≠ [] ∧ p.2 ≠ [] ∧ ':' ∉ p.2 then some ⟨s, p.1, p.2, (stripPlus s).1⟩
    else none
  | none => none

/-- Accessor `Refspec_source__get__` (refspec.c): returns
`git_refspec_src`. -/
def Refspec_source__get__ (r : GRefspec) : Str := r.src

/-- Accessor `Refspec_destination__get__` (refspec.c): returns
`git_refspec_dst`. -/
def Refspec_destination__get__ (r : GRefspec) : Str := r.dst

/-- Accessor `Refspec_is_forced__get__` (refspec.c): returns
`git_refspec_force`. -/
def Refspec_is_forced__get__ (r : GRefspec) : Bool := r.force

/-- Accessor `Refspec_string__get__` (refspec.c): returns
`git_refspec_string`, the stored original string. -/
def Refspec_string__get__ (r : GRefspec) : Str := r.string

/-- Embedding of `Remote_fetchspec__set__` (remote.c): builds the buffer
`sprintf(buf, "+%s:%s", src, dst)` and hands it to the (spec-modelled)
`git_remote_set_fetchspec`; returns the newly stored refspec, or `none` for
the `ValueError` failure path. -/
def Remote_fetchspec__set__ (src dst : Str) : Option GRefspec :=
  parseRefspec ('+' :: (src ++ ':' :: dst))

/-- Embedding of `Remote_fetchspec__get__` (remote.c): returns the pair
`(git_refspec_src, git_refspec_dst)` of the remote's fetchspec, or `none`
for the `GIT_ENOTFOUND` error path when no fetchspec is configured. -/
def Remote_fetchspec__get__ (fetchspec : Option GRefspec) : Option (Str × Str) :=
  fetchspec.map (fun r => (r.src, r.dst))

/-! ### Transfer session: fetch (remote.c, `Remote_fetch`)

The outcomes of the external libgit2 calls are an environment; the embedding
mirrors the control flow of the C function, threading the `err` variable and
recording how many times `git_remote_disconnect` ran. -/

/-- Transfer statistics snapshot (`git_transfer_progress`). -/
structure TransferStats where
  indexed_objects : Nat
  received_objects : Nat
  received_bytes : Nat
deriving DecidableEq, Repr

/-- Result of a fetch call at the Python boundary: `error c` is
`Error_set(c)`, `success` returns the statistics dictionary, `nullNoError`
is a NULL return with no exception set. -/
inductive FetchOutcome where
  | error (code : Int)
  | success (stats : TransferStats)
  | nullNoError
deriving DecidableEq, Repr

/-- Environment of one `Remote_fetch` call: the codes returned by
`git_remote_connect`, `git_remote_download`, `git_remote_update_tips`, and
the statistics snapshot `git_remote_stats` would report. -/
structure FetchEnv where
  connectErr : Int
  downloadErr : Int
  stats : TransferStats
  updateTipsErr : Int
deriving DecidableEq, Repr

/-- Observable result of one `Remote_fetch` call: the boundary outcome and
the number of `git_remote_disconnect` calls. -/
structure FetchTrace where
  outcome : FetchOutcome
  disconnects : Nat
deriving DecidableEq, Repr

/-- Embedding of `Remote_fetch` (remote.c): connect, then download, then
build the statistics dictionary and update tips, then disconnect; finally
`if (err < 0) return Error_set(err); return py_stats`. -/
def Remote_fetch (env : FetchEnv) : FetchTrace :=
  if env.connectErr = GIT_OK then
    if env.downloadErr = GIT_OK then
      if env.updateTipsErr < GIT_OK then ⟨FetchOutcome.error env.updateTipsErr, 1⟩
      else ⟨FetchOutcome.success env.stats, 1⟩
    else
      if env.downloadErr < GIT_OK then ⟨FetchOutcome.error env.downloadErr, 1⟩
      else ⟨FetchOutcome.nullNoError, 1⟩
  else
    if env.connectErr < GIT_OK then ⟨FetchOutcome.error env.connectErr, 0⟩
    else ⟨FetchOutcome.nullNoError, 0⟩

/-! ### Transfer session: push (remote.c, `push_foreach_cb` and `Remote_push`) -/

/-- One invocation of the per-reference status callback: the reference name,
the optional message, and whether the three fallible host-side steps of
`push_foreach_cb` succeed for it (`to_path`/`to_encoding` conversion,
`PyTuple_New`, `PyList_Append`). -/
structure StatusEntry where
  ref : String
  msg : Option String
  convOk : Bool
  tupleOk : Bool
  appendOk : Bool
deriving DecidableEq, Repr

/-- Embedding of `push_foreach_cb` (remote.c).  Given the accumulated report
list and the pending-exception flag, returns the callback's return code, the
new list and the new pending flag.  Note the source ignores the return value
of `PyList_Append`: a failed append leaves an exception pending but still
returns `GIT_OK`. -/
def push_foreach_cb (e : StatusEntry) (acc : List (String × String)) (pend : Bool) :
    Int × List (String × String) × Bool :=
  match e.msg with
  | none => (GIT_OK, acc, pend)
  | some m =>
    if e.convOk then
      if e.tupleOk then
        if e.appendOk then (GIT_OK, acc ++ [(e.ref, m)], pend)
        else (GIT_OK, acc, true)
      else (GIT_ERROR, acc, true)
    else (GIT_ERROR, acc, true)

/-- Modelled from the spec: libgit2's `git_push_status_foreach` (absent from
src) — invokes the callback once per advertised reference, in order, and
aborts with `GIT_EUSER` as soon as a callback returns a nonzero code. -/
def git_push_status_foreach (entries : List StatusEntry)
    (acc : List (String × String)) (pend : Bool) :
    Int × List (String × String) × Bool :=
  match entries with
  | [] => (GIT_OK, acc, pend)
  | e :: rest =>
    let r := push_foreach_cb e acc pend
    if r.1 = GIT_OK then git_push_status_foreach rest r.2.1 r.2.2
    else (GIT_EUSER, r.2.1, r.2.2)

/-- One element of the sequence handed to `push`: either a string (with the
code `git_push_add_refspec` returns for it) or a non-string object, for which
`PyString_AsString` fails with a `TypeError`. -/
inductive PushArg where
  | str (s : String) (addErr : Int)
  | nonStr
deriving DecidableEq, Repr

/-- Embedding of the refspec-adding loop of `Remote_push`: runs while
`err == GIT_OK`, records every string passed to `git_push_add_refspec`, and
sets `err = GIT_EUSER` on a string-conversion failure. -/
def addRefspecs : List PushArg → Int × List String
  | [] => (GIT_OK, [])
  | PushArg.nonStr :: _ => (GIT_EUSER, [])
  | PushArg.str s e :: rest =>
    if e = GIT_OK then
      let r := addRefspecs rest
      (r.1, s :: r.2)
    else (e, [s])

/-- Result of a push call at the Python boundary: `hostError` is a NULL
return that preserves the host-side (callback/marshalling) exception,
`protocolError c` is `Error_set(c)`, `okReport` returns the report list,
`nullNoError` is a NULL return with no exception set. -/
inductive PushOutcome where
  | hostError
  | protocolError (code : Int)
  | okReport (report : List (String × String))
  | nullNoError
deriving DecidableEq, Repr

/-- Environment of one `Remote_push` call: codes of `git_remote_connect`,
`git_push_new`, per-argument behaviour, `git_push_finish`,
`git_push_unpack_ok`, whether `PyList_New(0)` succeeds, the status entries
the server reports, and the `git_push_update_tips` code. -/
structure PushEnv where
  connectErr : Int
  pushNewErr : Int
  args : List PushArg
  finishErr : Int
  unpackOk : Bool
  listNewOk : Bool
  statuses : List StatusEntry
  updateTipsErr : Int
deriving DecidableEq, Repr

/-- Observable result of one `Remote_push` call: the boundary outcome, the
refspecs passed to `git_push_add_refspec`, and the number of
`git_remote_disconnect` calls. -/
structure PushTrace where
  outcome : PushOutcome
  added : List String
  disconnects : Nat
deriving DecidableEq, Repr

/-- The final dispatch of `Remote_push` (remote.c):
`if (err == GIT_EUSER) return NULL; else if (err < GIT_OK) return
Error_set(err); else return py_results;` — where returning a NULL
`py_results` surfaces a pending host exception if one is set and is a bare
NULL return otherwise. -/
def pushDispatch (err : Int) (results : Option (List (String × String)))
    (pend : Bool) (added : List String) (disc : Nat) : PushTrace :=
  { outcome :=
      if err = GIT_EUSER then PushOutcome.hostError
      else if err < GIT_OK then PushOutcome.protocolError err
      else match results with
        | some r => PushOutcome.okReport r
        | none => if pend then PushOutcome.hostError else PushOutcome.nullNoError
    added := added
    disconnects := disc }

/-- Embedding of `Remote_push` (remote.c): connect in push direction, create
the push object, add the refspecs, finish, check unpack, allocate the result
list, iterate the per-reference statuses, update tips, free the push object,
disconnect, and dispatch on the final `err`. -/
def Remote_push (env : PushEnv) : PushTrace :=
  if env.connectErr = GIT_OK then
    if env.pushNewErr = GIT_OK then
      let ar := addRefspecs env.args
      if ar.1 = GIT_OK then
        if env.finishErr = GIT_OK then
          if env.unpackOk then
            if env.listNewOk then
              let fr := git_push_status_foreach env.statuses [] false
              if fr.1 = GIT_OK then
                pushDispatch env.updateTipsErr (some fr.2.1) fr.2.2 ar.2 1
              else
                pushDispatch fr.1 (some fr.2.1) fr.2.2 ar.2 1
            else pushDispatch GIT_OK none true ar.2 1
          else pushDispatch GIT_OK none false ar.2 1
        else pushDispatch env.finishErr none false ar.2 1
      else pushDispatch ar.1 none (decide (ar.1 = GIT_EUSER)) ar.2 1
    else pushDispatch env.pushNewErr none false [] 1
  else pushDispatch env.connectErr none false [] 0

/-! ### Specification-side definitions for the push failure-precedence claim

These follow the wording of the (amended) spec sentence on failure
precedence, to be compared with `Remote_push` by a refinement theorem. -/

/-- A status entry whose marshalling (string conversion and tuple creation)
succeeds — entries without a message need no marshalling. -/
def marshalOk (e : StatusEntry) : Bool :=
  e.msg.isNone || (e.convOk && e.tupleOk)

/-- The report entries that actually reach the result list: one per entry
with a present message whose conversion, tuple creation and list append all
succeed, in order. -/
def appendedReport (entries : List StatusEntry) : List (String × String) :=
  entries.filterMap (fun e => e.msg.bind (fun m =>
    if e.convOk && e.tupleOk && e.appendOk then some (e.ref, m) else none))

/-- Whether a pending host exception is left behind by an ignored
`PyList_Append` failure during a run of the whole status list. -/
def pendAfter (entries : List StatusEntry) : Bool :=
  entries.any (fun e => e.msg.isSome && e.convOk && e.tupleOk && !e.appendOk)

/-- The code the refspec-adding loop ends with. -/
def addCode (env : PushEnv) : Int := (addRefspecs env.args).1

/-- A libgit2 step code is realistic when it is `GIT_OK` or a negative code
other than `GIT_EUSER` (which libgit2 reserves for callback-raised
failures). -/
def validCode (c : Int) : Prop := c = GIT_OK ∨ (c < GIT_OK ∧ c ≠ GIT_EUSER)

/-- Following the spec's failure-precedence wording: a host-side failure
occurs when a refspec string conversion fails, when the result-list
allocation fails, or when a status callback aborts for a marshalling
failure, at a point the execution actually reaches. -/
def hostFailureOccurs (env : PushEnv) : Bool :=
  decide (env.connectErr = GIT_OK) && decide (env.pushNewErr = GIT_OK) &&
    (decide (addCode env = GIT_EUSER) ||
      (decide (addCode env = GIT_OK) && decide (env.finishErr = GIT_OK) &&
        env.unpackOk && (!env.listNewOk || !(env.statuses.all marshalOk))))

/-- Following the spec's failure-precedence wording: the first protocol-level
error code produced by connect, push-new, refspec-add, finish or tip-update,
respecting the execution order; `none` when no protocol error code arises
(including when a host-side failure pre-empts the remaining steps). -/
def firstProtocolError (env : PushEnv) : Option Int :=
  if env.connectErr ≠ GIT_OK then some env.connectErr
  else if env.pushNewErr ≠ GIT_OK then some env.pushNewErr
  else if addCode env = GIT_EUSER then none
  else if addCode env ≠ GIT_OK then some (addCode env)
  else if env.finishErr ≠ GIT_OK then some env.finishErr
  else if !env.unpackOk then none
  else if !env.listNewOk then none
  else if !(env.statuses.all marshalOk) then none
  else if env.updateTipsErr ≠ GIT_OK then some env.updateTipsErr
  else none

/-- The push outcome as the amended failure-precedence sentence describes it:
host-side failure first, then the first protocol-level error code, then the
server-unpack-failure null result, and otherwise success with the report of
the successfully appended entries. -/
def pushOutcomeSpec (env : PushEnv) : PushOutcome :=
  if hostFailureOccurs env then PushOutcome.hostError
  else match firstProtocolError env with
    | some c => PushOutcome.protocolError c
    | none =>
      if decide (env.connectErr = GIT_OK) && decide (env.pushNewErr = GIT_OK) &&
          decide (addCode env = GIT_OK) && decide (env.finishErr = GIT_OK) &&
          !env.unpackOk
      then PushOutcome.nullNoError
      else PushOutcome.okReport (appendedReport env.statuses)

/-! ### Concrete push environments used as counterexample / failing inputs -/

/-- A push exchange where every step succeeds but the server does not
acknowledge the unpack: `git_push_finish` returns `GIT_OK` and
`git_push_unpack_ok` is false. -/
def pushEnvUnpackFail : PushEnv :=
  { connectErr := GIT_OK, pushNewErr := GIT_OK, args := [], finishErr := GIT_OK
    unpackOk := false, listNewOk := true, statuses := [], updateTipsErr := GIT_OK }

/-- A push exchange where the server rejects `refs/heads/x` with a message
and the host-side `PyList_Append` of the report entry fails (allocation
failure), while every other step succeeds. -/
def pushEnvAppendFail : PushEnv :=
  { connectErr := GIT_OK, pushNewErr := GIT_OK, args := [], finishErr := GIT_OK
    unpackOk := true, listNewOk := true
    statuses := [{ ref := "refs/heads/x", msg := some "non-fast-forward"
                   convOk := true, tupleOk := true, appendOk := false }]
    updateTipsErr := GIT_OK }

/-! ### Helper lemmas: string splitting and wildcard matching -/

theorem splitOnce_sound {c : Char} :
    ∀ {s a b : Str}, splitOnce c s = some (a, b) → s = a ++ c :: b ∧ c ∉ a := by
  intro s
  induction s with
  | nil => intro a b h; simp [splitOnce] at h
  | cons x rest ih =>
    intro a b h
    by_cases hx : x = c
    · subst hx
      simp [splitOnce] at h
      obtain ⟨rfl, rfl⟩ := h
      exact ⟨rfl, by simp⟩
    · simp only [splitOnce, if_neg hx, Option.map_eq_some'] at h
      obtain ⟨p, hp, hab⟩ := h
      obtain ⟨h1, h2⟩ := ih hp
      cases hab
      refine ⟨by rw [List.cons_append, ← h1], ?_⟩
      intro hmem
      rcases List.mem_cons.mp hmem with h3 | h3
      · exact hx h3.symm
      · exact h2 h3

theorem splitOnce_append {c : Char} :
    ∀ {a : Str} (b : Str), c ∉ a → splitOnce c (a ++ c :: b) = some (a, b) := by
  intro a
  induction a with
  | nil => intro b _; simp [splitOnce]
  | cons x rest ih =>
    intro b hmem
    have hx : ¬x = c := fun h => hmem (h ▸ List.mem_cons_self x rest)
    have hrest : c ∉ rest := fun h => hmem (List.mem_cons_of_mem x h)
    simp [splitOnce, hx, ih b hrest]

theorem append_cons_inj {ch : Char} :
    ∀ {a c b d : Str}, a ++ ch :: b = c ++ ch :: d → ch ∉ a → ch ∉ c →
      a = c ∧ b = d := by
  intro a
  induction a with
  | nil =>
    intro c b d h _ hc
    cases c with
    | nil => exact ⟨rfl, by simpa using h⟩
    | cons x cs =>
      simp only [List.nil_append, List.cons_append, List.cons.injEq] at h
      exact absurd (h.1 ▸ List.mem_cons_self x cs) hc
  | cons y as ih =>
    intro c b d h ha hc
    cases c with
    | nil =>
      simp only [List.cons_append, List.nil_append, List.cons.injEq] at h
      exact absurd (h.1.symm ▸ List.mem_cons_self y as) ha
    | cons x cs =>
      simp only [List.cons_append, List.cons.injEq] at h
      obtain ⟨rfl, h2⟩ := h
      have hrec := ih h2 (fun hm => ha (List.mem_cons_of_mem y hm))
        (fun hm => hc (List.mem_cons_of_mem y hm))
      exact ⟨by rw [hrec.1], hrec.2⟩

theorem stripPlus_sound (s : Str) :
    s = (if (stripPlus s).1 then ['+'] else []) ++ (stripPlus s).2 := by
  cases s with
  | nil => rfl
  | cons c r =>
    by_cases hc : c = '+'
    · subst hc
      simp [stripPlus]
    · simp [stripPlus, hc]

theorem wmatch_mk (p : WildPat) (mid : Str) :
    wmatch p (p.pre ++ mid ++ p.suf) = some mid := by
  rw [List.append_assoc]
  have hd : (p.pre ++ (mid ++ p.suf)).drop p.pre.length = mid ++ p.suf :=
    List.drop_left _ _
  have h : p.pre <+: p.pre ++ (mid ++ p.suf) ∧
      p.suf <:+ (p.pre ++ (mid ++ p.suf)).drop p.pre.length := by
    rw [hd]
    exact ⟨List.prefix_append _ _, List.suffix_append _ _⟩
  unfold wmatch
  rw [dif_pos h, hd]
  congr 1
  rw [List.length_append, Nat.add_sub_cancel, List.take_left]

theorem parseRefspec_plus (l : Str) :
    parseRefspec ('+' :: l) =
      match splitOnce ':' l with
      | some p =>
        if p.1 ≠ [] ∧ p.2 ≠ [] ∧ ':' ∉ p.2 then some ⟨'+' :: l, p.1, p.2, true⟩
        else none
      | none => none := by
  unfold parseRefspec
  have h : stripPlus ('+' :: l) = (true, l) := by simp [stripPlus]
  rw [h]

theorem wmatch_sound {p : WildPat} {n mid : Str} (h : wmatch p n = some mid) :
    n = p.pre ++ mid ++ p.suf := by
  unfold wmatch at h
  split at h
  case isTrue hc =>
    obtain ⟨⟨t, ht⟩, hsuf⟩ := hc
    injection h with h
    subst ht
    rw [List.drop_left] at hsuf h
    obtain ⟨u, hu⟩ := hsuf
    subst hu
    rw [List.length_append, Nat.add_sub_cancel, List.take_left] at h
    rw [h, List.append_assoc]
  case isFalse => exact absurd h (by simp)

/-! ### Helper lemmas: push status iteration and the refspec-adding loop -/

theorem git_push_status_foreach_all_ok :
    ∀ (entries : List StatusEntry) (acc : List (String × String)) (pend : Bool),
      (∀ e ∈ entries, e.convOk = true ∧ e.tupleOk = true ∧ e.appendOk = true) →
      git_push_status_foreach entries acc pend =
        (GIT_OK,
         acc ++ entries.filterMap (fun e => e.msg.map (fun m => (e.ref, m))),
         pend) := by
  intro entries
  induction entries with
  | nil => intro acc pend _; simp [git_push_status_foreach]
  | cons e rest ih =>
    intro acc pend hall
    obtain ⟨hc, htp, hap⟩ := hall e (List.mem_cons_self e rest)
    have hrest := fun x hx => hall x (List.mem_cons_of_mem e hx)
    cases hm : e.msg with
    | none =>
      have hcb : push_foreach_cb e acc pend = (GIT_OK, acc, pend) := by
        simp [push_foreach_cb, hm]
      simp only [git_push_status_foreach, hcb]
      rw [ih acc pend hrest]
      simp [hm]
    | some m =>
      have hcb : push_foreach_cb e acc pend = (GIT_OK, acc ++ [(e.ref, m)], pend) := by
        simp [push_foreach_cb, hm, hc, htp, hap]
      simp only [git_push_status_foreach, hcb]
      rw [ih (acc ++ [(e.ref, m)]) pend hrest]
      simp [hm]

theorem git_push_status_foreach_eq :
    ∀ (entries : List StatusEntry) (acc : List (String × String)) (pend : Bool),
      git_push_status_foreach entries acc pend =
        if entries.all marshalOk
        then (GIT_OK, acc ++ appendedReport entries, pend || pendAfter entries)
        else (GIT_EUSER, acc ++ appendedReport (entries.takeWhile marshalOk), true) := by
  intro entries
  induction entries with
  | nil =>
    intro acc pend
    simp [git_push_status_foreach, appendedReport, pendAfter]
  | cons e rest ih =>
    intro acc pend
    cases hm : e.msg with
    | none =>
      have hcb : push_foreach_cb e acc pend = (GIT_OK, acc, pend) := by
        simp [push_foreach_cb, hm]
      have hmo : marshalOk e = true := by simp [marshalOk, hm]
      simp only [git_push_status_foreach, hcb]
      rw [ih acc pend]
      by_cases hall : rest.all marshalOk = true
      · simp [hall, hmo, appendedReport, pendAfter, hm]
      · simp [hall, hmo, appendedReport, pendAfter, hm,
          List.takeWhile_cons]
    | some m =>
      by_cases hcv : e.convOk = true
      · by_cases htp : e.tupleOk = true
        · have hmo : marshalOk e = true := by simp [marshalOk, hm, hcv, htp]
          by_cases hap : e.appendOk = true
          · have hcb : push_foreach_cb e acc pend =
                (GIT_OK, acc ++ [(e.ref, m)], pend) := by
              simp [push_foreach_cb, hm, hcv, htp, hap]
            simp only [git_push_status_foreach, hcb]
            rw [ih (acc ++ [(e.ref, m)]) pend]
            by_cases hall : rest.all marshalOk = true
            · simp [hall, hmo, appendedReport, pendAfter, hm, hcv, htp, hap]
            · simp [hall, hmo, appendedReport, pendAfter, hm, hcv, htp, hap,
                List.takeWhile_cons]
          · have hap2 : e.appendOk = false := by
              cases h : e.appendOk
              · rfl
              · exact absurd h hap
            have hcb : push_foreach_cb e acc pend = (GIT_OK, acc, true) := by
              simp [push_foreach_cb, hm, hcv, htp, hap2]
            simp only [git_push_status_foreach, hcb]
            rw [ih acc true]
            by_cases hall : rest.all marshalOk = true
            · simp [hall, hmo, appendedReport, pendAfter, hm, hcv, htp, hap2]
            · simp [hall, hmo, appendedReport, pendAfter, hm, hcv, htp, hap2,
                List.takeWhile_cons]
        · have htp2 : e.tupleOk = false := by
            cases h : e.tupleOk
            · rfl
            · exact absurd h htp
          have hmo : marshalOk e = false := by simp [marshalOk, hm, htp2]
          have hcb : push_foreach_cb e acc pend = (GIT_ERROR, acc, true) := by
            simp [push_foreach_cb, hm, hcv, htp2]
          have hne : ¬(GIT_ERROR = GIT_OK) := by decide
          simp only [git_push_status_foreach, hcb]
          simp [hne, hmo, appendedReport, List.takeWhile_cons]
      · have hcv2 : e.convOk = false := by
          cases h : e.convOk
          · rfl
          · exact absurd h hcv
        have hmo : marshalOk e = false := by simp [marshalOk, hm, hcv2]
        have hcb : push_foreach_cb e acc pend = (GIT_ERROR, acc, true) := by
          simp [push_foreach_cb, hm, hcv2]
        have hne : ¬(GIT_ERROR = GIT_OK) := by decide
        simp only [git_push_status_foreach, hcb]
        simp [hne, hmo, appendedReport, List.takeWhile_cons]

theorem addRefspecs_all_ok :
    ∀ (pre : List String),
      addRefspecs (pre.map (fun s => PushArg.str s GIT_OK)) = (GIT_OK, pre) := by
  intro pre
  induction pre with
  | nil => rfl
  | cons s rest ih => simp [addRefspecs, ih]

theorem addRefspecs_nonstr :
    ∀ (pre : List String) (post : List PushArg),
      addRefspecs (pre.map (fun s => PushArg.str s GIT_OK) ++ PushArg.nonStr :: post) =
        (GIT_EUSER, pre) := by
  intro pre post
  induction pre with
  | nil => rfl
  | cons s rest ih => simp [addRefspecs, ih]

theorem addCode_cases :
    ∀ (args : List PushArg),
      (addRefspecs args).1 = GIT_OK ∨ (addRefspecs args).1 = GIT_EUSER ∨
        ∃ s, PushArg.str s (addRefspecs args).1 ∈ args := by
  intro args
  induction args with
  | nil => exact Or.inl rfl
  | cons a rest ih =>
    cases a with
    | nonStr => exact Or.inr (Or.inl rfl)
    | str s e =>
      by_cases he : e = GIT_OK
      · subst he
        simp only [addRefspecs, if_pos rfl]
        rcases ih with h | h | ⟨t, h⟩
        · exact Or.inl h
        · exact Or.inr (Or.inl h)
        · exact Or.inr (Or.inr ⟨t, List.mem_cons_of_mem _ h⟩)
      · simp only [addRefspecs, if_neg he]
        exact Or.inr (Or.inr ⟨s, List.mem_cons_self _ _⟩)

/-! ### Claim theorems: refspec engine and fetchspec configuration -/

/-- C6: for all strings `s`, `d` for which `Remote_fetchspec__set__ (s, d)`
succeeds, the refspec is stored in the forced encoded form `"+" + s + ":" + d`,
a subsequent `Remote_fetchspec__get__` returns exactly the pair `(s, d)`, the
stored refspec's force flag is true, and neither string was empty (empty
strings make the set fail with the invalid-argument error). -/
theorem c6_set_get_fetchspec_roundtrip :
    ∀ (src dst : Str) (rs : GRefspec), Remote_fetchspec__set__ src dst = some rs →
      rs.force = true ∧
      Refspec_string__get__ rs = '+' :: (src ++ ':' :: dst) ∧
      Remote_fetchspec__get__ (some rs) = some (src, dst) ∧
      src ≠ [] ∧ dst ≠ [] := by
  intro src dst rs h
  unfold Remote_fetchspec__set__ at h
  rw [parseRefspec_plus] at h
  split at h
  next p heq =>
    obtain ⟨p1, p2⟩ := p
    by_cases hg : p1 ≠ [] ∧ p2 ≠ [] ∧ ':' ∉ p2
    · rw [if_pos hg] at h
      obtain ⟨hp1, hp2⟩ := splitOnce_sound heq
      have hcnt := congrArg (List.count ':') hp1
      simp only [List.count_append, List.count_cons_self] at hcnt
      rw [List.count_eq_zero.mpr hp2, List.count_eq_zero.mpr hg.2.2] at hcnt
      have hsrc : ':' ∉ src := List.count_eq_zero.mp (by omega)
      obtain ⟨rfl, rfl⟩ := append_cons_inj hp1 hsrc hp2
      injection h with h
      subst h
      exact ⟨rfl, rfl, rfl, hg.1, hg.2.1⟩
    · rw [if_neg hg] at h
      exact absurd h (by simp)
  next heq => exact absurd h (by simp)

/-- C6 witness: a concrete successful set followed by get. -/
theorem c6_witness :
    Remote_fetchspec__get__ (some ⟨['+', 'a', ':', 'b'], ['a'], ['b'], true⟩) =
      some (['a'], ['b']) := by
  have h : Remote_fetchspec__set__ ['a'] ['b'] =
      some ⟨['+', 'a', ':', 'b'], ['a'], ['b'], true⟩ := by decide
  exact (c6_set_get_fetchspec_roundtrip ['a'] ['b'] _ h).2.2.1

/-- C8: every well-formed (successfully parsed) refspec satisfies the
reconstruction equation: the pure accessors return the source and destination
patterns, and the stored canonical string equals
`(is_forced ? "+" : "") + source + ":" + destination`. -/
theorem c8_refspec_accessor_reconstruction :
    ∀ (s : Str) (rs : GRefspec), parseRefspec s = some rs →
      Refspec_source__get__ rs = rs.src ∧
      Refspec_destination__get__ rs = rs.dst ∧
      Refspec_string__get__ rs =
        (if Refspec_is_forced__get__ rs then ['+'] else []) ++
          Refspec_source__get__ rs ++ ':' :: Refspec_destination__get__ rs := by
  intro s rs h
  unfold parseRefspec at h
  split at h
  next p heq =>
    obtain ⟨p1, p2⟩ := p
    by_cases hg : p1 ≠ [] ∧ p2 ≠ [] ∧ ':' ∉ p2
    · rw [if_pos hg] at h
      injection h with h
      subst h
      refine ⟨rfl, rfl, ?_⟩
      have h1 := (splitOnce_sound heq).1
      have h2 := stripPlus_sound s
      rw [h1] at h2
      show s = (if (stripPlus s).1 then ['+'] else []) ++ p1 ++ ':' :: p2
      rw [List.append_assoc]
      exact h2
    · rw [if_neg hg] at h
      exact absurd h (by simp)
  next heq => exact absurd h (by simp)

/-- C8 witness: the reconstruction equation at a concrete parsed refspec. -/
theorem c8_witness :
    Refspec_string__get__ ⟨['+', 'a', ':', 'b'], ['a'], ['b'], true⟩ =
      (if Refspec_is_forced__get__ ⟨['+', 'a', ':', 'b'], ['a'], ['b'], true⟩
       then ['+'] else []) ++
        Refspec_source__get__ ⟨['+', 'a', ':', 'b'], ['a'], ['b'], true⟩ ++
          ':' :: Refspec_destination__get__ ⟨['+', 'a', ':', 'b'], ['a'], ['b'], true⟩ := by
  have h : parseRefspec ['+', 'a', ':', 'b'] =
      some ⟨['+', 'a', ':', 'b'], ['a'], ['b'], true⟩ := by decide
  exact (c8_refspec_accessor_reconstruction _ _ h).2.2

/-- C7: for every refspec with at most one wildcard per side and every name
`x` matching the destination pattern's shape, transforming the reverse
transform of `x` yields `x` again: `transform (rtransform x) = x`. -/
theorem c7_transform_rtransform_roundtrip :
    ∀ (src dst : Str) (p : RSpecPats) (x : Str),
      List.count '*' src ≤ 1 → List.count '*' dst ≤ 1 →
      mkPats src dst = some p → dstMatches p x = true →
      (rtransform p x).bind (fun y => transform p y) = some x := by
  intro src dst p x _ _ _ hm
  cases p with
  | plain s d =>
    have hx : x = d := by simpa [dstMatches] using hm
    subst hx
    simp [rtransform, transform]
  | wild ps pd =>
    have hx : ∃ mid, wmatch pd x = some mid := by
      simpa [dstMatches, Option.isSome_iff_exists] using hm
    obtain ⟨mid, hmid⟩ := hx
    have hxeq := wmatch_sound hmid
    simp only [rtransform, hmid, Option.map_some', Option.some_bind, transform,
      wmatch_mk]
    rw [← hxeq]

/-- C7 witness: the round trip at a concrete wildcard refspec and name. -/
theorem c7_witness :
    (rtransform (RSpecPats.wild ⟨['a'], []⟩ ⟨['b'], []⟩) ['b', 'c']).bind
      (fun y => transform (RSpecPats.wild ⟨['a'], []⟩ ⟨['b'], []⟩) y) =
      some ['b', 'c'] :=
  c7_transform_rtransform_roundtrip ['a', '*'] ['b', '*'] _ ['b', 'c']
    (by decide) (by decide) (by decide) (by decide)

theorem transform_length_le {src dst name : Str} {p : RSpecPats} {out : Str}
    (hp : mkPats src dst = some p) (ht : transform p name = some out) :
    out.length + 1 ≤ dst.length + name.length + 1 := by
  unfold mkPats at hp
  cases hsrc : splitOnce '*' src with
  | none =>
    rw [hsrc] at hp
    cases hdst : splitOnce '*' dst with
    | none =>
      rw [hdst] at hp
      injection hp with hp
      subst hp
      simp only [transform] at ht
      split at ht
      · injection ht with ht
        subst ht
        omega
      · exact absurd ht (by simp)
    | some dp =>
      rw [hdst] at hp
      exact absurd hp (by simp)
  | some sp =>
    rw [hsrc] at hp
    cases hdst : splitOnce '*' dst with
    | none =>
      rw [hdst] at hp
      exact absurd hp (by simp)
    | some dp =>
      rw [hdst] at hp
      injection hp with hp
      subst hp
      simp only [transform, Option.map_eq_some'] at ht
      obtain ⟨mid, hmid, hout⟩ := ht
      have hname := wmatch_sound hmid
      have hd := (splitOnce_sound hdst).1
      subst hout
      rw [hd, hname]
      simp only [List.length_append, List.length_cons]
      omega

theorem rtransform_length_le {src dst name : Str} {p : RSpecPats} {out : Str}
    (hp : mkPats src dst = some p) (ht : rtransform p name = some out) :
    out.length + 1 ≤ src.length + name.length + 1 := by
  unfold mkPats at hp
  cases hsrc : splitOnce '*' src with
  | none =>
    rw [hsrc] at hp
    cases hdst : splitOnce '*' dst with
    | none =>
      rw [hdst] at hp
      injection hp with hp
      subst hp
      simp only [rtransform] at ht
      split at ht
      · injection ht with ht
        subst ht
        omega
      · exact absurd ht (by simp)
    | some dp =>
      rw [hdst] at hp
      exact absurd hp (by simp)
  | some sp =>
    rw [hsrc] at hp
    cases hdst : splitOnce '*' dst with
    | none =>
      rw [hdst] at hp
      exact absurd hp (by simp)
    | some dp =>
      rw [hdst] at hp
      injection hp with hp
      subst hp
      simp only [rtransform, Option.map_eq_some'] at ht
      obtain ⟨mid, hmid, hout⟩ := ht
      have hname := wmatch_sound hmid
      have hs := (splitOnce_sound hsrc).1
      subst hout
      rw [hs, hname]
      simp only [List.length_append, List.length_cons]
      omega

/-- C9: `Refspec_transform` sizes its output buffer as
`len(destination) + len(name) + 1` and `Refspec_rtransform` as
`len(source) + len(name) + 1`; these sizes accommodate the underlying
transform's worst case, so the bounded transform equals the unbounded one
(the buffer guard never fires) and every produced name plus its terminator
fits in the allocated buffer. -/
theorem c9_buffer_sizing :
    ∀ (src dst name : Str),
      Refspec_transform src dst name =
        (mkPats src dst).bind (fun p => transform p name) ∧
      Refspec_rtransform src dst name =
        (mkPats src dst).bind (fun p => rtransform p name) ∧
      (∀ (p : RSpecPats) (out : Str), mkPats src dst = some p →
        transform p name = some out →
        out.length + 1 ≤ dst.length + name.length + 1) ∧
      (∀ (p : RSpecPats) (out : Str), mkPats src dst = some p →
        rtransform p name = some out →
        out.length + 1 ≤ src.length + name.length + 1) := by
  intro src dst name
  refine ⟨?_, ?_, fun p out hp ht => transform_length_le hp ht,
    fun p out hp ht => rtransform_length_le hp ht⟩
  · unfold Refspec_transform
    cases hp : mkPats src dst with
    | none => rfl
    | some p =>
      simp only [Option.some_bind]
      cases ht : transform p name with
      | none => rfl
      | some out =>
        simp only [Option.some_bind]
        rw [if_pos (transform_length_le hp ht)]
  · unfold Refspec_rtransform
    cases hp : mkPats src dst with
    | none => rfl
    | some p =>
      simp only [Option.some_bind]
      cases ht : rtransform p name with
      | none => rfl
      | some out =>
        simp only [Option.some_bind]
        rw [if_pos (rtransform_length_le hp ht)]

/-- C9 witness: the buffer bound at a concrete wildcard transform. -/
theorem c9_witness :
    (['b', 'c'] : Str).length + 1 ≤
      (['b', '*'] : Str).length + (['a', 'c'] : Str).length + 1 :=
  (c9_buffer_sizing ['a', '*'] ['b', '*'] ['a', 'c']).2.2.1
    (RSpecPats.wild ⟨['a'], []⟩ ⟨['b'], []⟩) ['b', 'c'] (by decide) (by decide)

/-! ### Claim theorems: transfer sessions -/

/-- C1: in every completed push exchange (server acknowledged the unpack,
every step succeeded, and the host-side marshalling of every entry
succeeded), the returned report holds exactly one `(refname, message)` entry
per status-callback invocation with a present message, in callback order, and
none for the absent-message invocations; all-accepted pushes yield `[]`. -/
theorem c1_push_report_entries :
    ∀ (env : PushEnv),
      env.connectErr = GIT_OK → env.pushNewErr = GIT_OK →
      (addRefspecs env.args).1 = GIT_OK → env.finishErr = GIT_OK →
      env.unpackOk = true → env.listNewOk = true → env.updateTipsErr = GIT_OK →
      (∀ e ∈ env.statuses, e.convOk = true ∧ e.tupleOk = true ∧ e.appendOk = true) →
      (Remote_push env).outcome =
        PushOutcome.okReport
          (env.statuses.filterMap (fun e => e.msg.map (fun m => (e.ref, m)))) := by
  intro env h1 h2 h3 h4 h5 h6 h7 h8
  unfold Remote_push
  rw [git_push_status_foreach_all_ok env.statuses [] false h8]
  simp [h1, h2, h3, h4, h5, h6, h7, pushDispatch, GIT_OK, GIT_EUSER]

/-- C1 witness: a push where one reference is rejected with a message and a
sibling is accepted without comment reports exactly the rejected one. -/
theorem c1_witness :
    (Remote_push
      ⟨GIT_OK, GIT_OK, [PushArg.str "refs/heads/x" GIT_OK], GIT_OK, true, true,
        [⟨"refs/heads/x", some "non-fast-forward", true, true, true⟩,
         ⟨"refs/heads/y", none, true, true, true⟩], GIT_OK⟩).outcome =
      PushOutcome.okReport [("refs/heads/x", "non-fast-forward")] := by
  have h := c1_push_report_entries
    ⟨GIT_OK, GIT_OK, [PushArg.str "refs/heads/x" GIT_OK], GIT_OK, true, true,
      [⟨"refs/heads/x", some "non-fast-forward", true, true, true⟩,
       ⟨"refs/heads/y", none, true, true, true⟩], GIT_OK⟩
    rfl rfl (by decide) rfl rfl rfl rfl (by decide)
  exact h.trans (by decide)

/-- C3: evaluation at the failing input — a status entry with a present
message whose host-side `PyList_Append` fails.  The source ignores the append
result, so the iteration does not abort and the host failure is not
propagated: the push returns a successful empty report instead. -/
theorem c3_append_failure_ignored :
    pushEnvAppendFail.statuses.any (fun e => e.msg.isSome && !e.appendOk) = true ∧
    Remote_push pushEnvAppendFail =
      { outcome := PushOutcome.okReport [], added := [], disconnects := 1 } := by
  decide

/-- C4: fetch returns the connect error without running any later step when
connect fails; once connected, the statistics snapshot is returned exactly
when download and tip update both succeed, any failure surfaces as the
corresponding error after the single disconnect, and no statistics are
returned in that case. -/
theorem c4_fetch_outcome :
    ∀ (env : FetchEnv),
      validCode env.connectErr → validCode env.downloadErr →
      validCode env.updateTipsErr →
      (env.connectErr ≠ GIT_OK →
        Remote_fetch env = ⟨FetchOutcome.error env.connectErr, 0⟩) ∧
      (env.connectErr = GIT_OK →
        (Remote_fetch env).disconnects = 1 ∧
        ((Remote_fetch env).outcome = FetchOutcome.success env.stats ↔
          env.downloadErr = GIT_OK ∧ env.updateTipsErr = GIT_OK) ∧
        (env.downloadErr ≠ GIT_OK →
          (Remote_fetch env).outcome = FetchOutcome.error env.downloadErr) ∧
        (env.downloadErr = GIT_OK → env.updateTipsErr ≠ GIT_OK →
          (Remote_fetch env).outcome = FetchOutcome.error env.updateTipsErr)) := by
  intro env hc hd ht
  constructor
  · intro h
    have hlt : env.connectErr < GIT_OK := by
      rcases hc with h1 | h1
      · exact absurd h1 h
      · exact h1.1
    unfold Remote_fetch
    rw [if_neg h, if_pos hlt]
  · intro h
    by_cases hdl : env.downloadErr = GIT_OK
    · by_cases htp : env.updateTipsErr = GIT_OK
      · have hnlt : ¬env.updateTipsErr < GIT_OK := by rw [htp]; omega
        refine ⟨?_, ?_, ?_, ?_⟩
        · simp [Remote_fetch, h, hdl, hnlt]
        · simp [Remote_fetch, h, hdl, hnlt, htp]
        · intro hx; exact absurd hdl hx
        · intro _ hx; exact absurd htp hx
      · have hlt : env.updateTipsErr < GIT_OK := by
          rcases ht with h1 | h1
          · exact absurd h1 htp
          · exact h1.1
        refine ⟨?_, ?_, ?_, ?_⟩
        · simp [Remote_fetch, h, hdl, hlt]
        · simp [Remote_fetch, h, hdl, hlt, htp]
        · intro hx; exact absurd hdl hx
        · intro _ _; simp [Remote_fetch, h, hdl, hlt]
    · have hlt : env.downloadErr < GIT_OK := by
        rcases hd with h1 | h1
        · exact absurd h1 hdl
        · exact h1.1
      refine ⟨?_, ?_, ?_, ?_⟩
      · simp [Remote_fetch, h, hdl, hlt]
      · simp [Remote_fetch, h, hdl, hlt]
      · intro _; simp [Remote_fetch, h, hdl, hlt]
      · intro hx; exact absurd hx hdl

/-- C4 witness: a fully successful fetch returns the statistics snapshot. -/
theorem c4_witness :
    (Remote_fetch ⟨GIT_OK, GIT_OK, ⟨1, 2, 3⟩, GIT_OK⟩).outcome =
      FetchOutcome.success ⟨1, 2, 3⟩ :=
  (((c4_fetch_outcome ⟨GIT_OK, GIT_OK, ⟨1, 2, 3⟩, GIT_OK⟩
      (Or.inl rfl) (Or.inl rfl) (Or.inl rfl)).2 rfl).2.1).mpr ⟨rfl, rfl⟩

/-- C5: for every fetch call and every push call, on every exit path,
disconnect runs exactly once when the connect step succeeded and never when
it failed. -/
theorem c5_disconnect_scoped :
    ∀ (fe : FetchEnv) (pe : PushEnv),
      (Remote_fetch fe).disconnects = (if fe.connectErr = GIT_OK then 1 else 0) ∧
      (Remote_push pe).disconnects = (if pe.connectErr = GIT_OK then 1 else 0) := by
  intro fe pe
  constructor
  · unfold Remote_fetch
    repeat' split
    all_goals rfl
  · simp only [Remote_push]
    repeat' split
    all_goals rfl

/-- C10: a push whose refspec sequence holds a non-string element raises the
host-side type error: refspecs after the failing element are never added to
the batch, the error propagates as the host failure (`GIT_EUSER`, not
overwritten by a protocol error), and disconnect still runs once. -/
theorem c10_nonstring_refspec_aborts_adds :
    ∀ (env : PushEnv) (pre : List String) (post : List PushArg),
      env.connectErr = GIT_OK → env.pushNewErr = GIT_OK →
      env.args = pre.map (fun s => PushArg.str s GIT_OK) ++ PushArg.nonStr :: post →
      Remote_push env =
        { outcome := PushOutcome.hostError, added := pre, disconnects := 1 } := by
  intro env pre post h1 h2 hargs
  unfold Remote_push
  rw [hargs, addRefspecs_nonstr pre post]
  simp [h1, h2, pushDispatch, GIT_OK, GIT_EUSER]

/-- C10 witness: a concrete push list `["refs/heads/a", non-string, "refs/heads/b"]`
stops adding at the non-string element and fails host-side. -/
theorem c10_witness :
    Remote_push
      ⟨GIT_OK, GIT_OK,
        [PushArg.str "refs/heads/a" GIT_OK, PushArg.nonStr,
         PushArg.str "refs/heads/b" GIT_OK],
        GIT_OK, true, true, [], GIT_OK⟩ =
      { outcome := PushOutcome.hostError, added := ["refs/heads/a"],
        disconnects := 1 } :=
  c10_nonstring_refspec_aborts_adds _ ["refs/heads/a"]
    [PushArg.str "refs/heads/b" GIT_OK] rfl rfl rfl

/-- C2 counterexample: a push where every step succeeds but the server does
not acknowledge the unpack.  There is no host-side failure, the claim counts
the unpack failure among the protocol-level errors, yet the call returns
neither that error nor a report: it produces a bare null result. -/
theorem c2_counterexample_unpack_null :
    pushEnvUnpackFail.finishErr = GIT_OK ∧ pushEnvUnpackFail.unpackOk = false ∧
    Remote_push pushEnvUnpackFail =
      { outcome := PushOutcome.nullNoError, added := [], disconnects := 1 } := by
  decide

/-- C2 (amended): with realistic step codes, the push outcome follows the
precedence host-side failure > first protocol-level error code > success,
except that a server unpack failure (finish succeeded, unpack not
acknowledged) yields a null result with no error and no report.  Stated as a
refinement against `pushOutcomeSpec`, which follows the amended sentence. -/
theorem c2_amended_failure_precedence :
    ∀ (env : PushEnv),
      validCode env.connectErr → validCode env.pushNewErr →
      validCode env.finishErr → validCode env.updateTipsErr →
      (∀ (s : String) (e : Int), PushArg.str s e ∈ env.args → validCode e) →
      (Remote_push env).outcome = pushOutcomeSpec env := by
  intro env hc hp hf ht ha
  have e1 : ¬(GIT_OK = GIT_EUSER) := by decide
  have e2 : ¬(GIT_OK < GIT_OK) := by decide
  have e3 : ¬(GIT_EUSER = GIT_OK) := by decide
  have e4 : GIT_EUSER < GIT_OK := by decide
  by_cases h1 : env.connectErr = GIT_OK
  · by_cases h2 : env.pushNewErr = GIT_OK
    · by_cases hA1 : (addRefspecs env.args).1 = GIT_OK
      · by_cases h4 : env.finishErr = GIT_OK
        · by_cases h5 : env.unpackOk = true
          · by_cases h6 : env.listNewOk = true
            · by_cases h7 : env.statuses.all marshalOk = true
              · have hfr := git_push_status_foreach_eq env.statuses [] false
                rw [if_pos h7] at hfr
                by_cases h8 : env.updateTipsErr = GIT_OK
                · have hHF : hostFailureOccurs env = false := by
                    simp [hostFailureOccurs, h1, h2, addCode, hA1, h4, h5, h6, h7, e1, e2, e3, e4]
                  have hFP : firstProtocolError env = none := by
                    simp [firstProtocolError, h1, h2, addCode, hA1, h4, h5, h6, h7, h8, e1, e2, e3, e4]
                  simp [Remote_push, pushOutcomeSpec, pushDispatch, addCode, h1, h2, hA1, h4, h5, h6, hfr, h8, hHF, hFP, e1, e2, e3, e4]
                · have hlt : env.updateTipsErr < GIT_OK ∧
                      env.updateTipsErr ≠ GIT_EUSER := by
                    rcases ht with h | h
                    · exact absurd h h8
                    · exact h
                  have hHF : hostFailureOccurs env = false := by
                    simp [hostFailureOccurs, h1, h2, addCode, hA1, h4, h5, h6, h7, e1, e2, e3, e4]
                  have hFP : firstProtocolError env = some env.updateTipsErr := by
                    simp [firstProtocolError, h1, h2, addCode, hA1, h4, h5, h6, h7, h8, e1, e2, e3, e4]
                  simp [Remote_push, pushOutcomeSpec, pushDispatch, addCode, h1, h2, hA1, h4, h5, h6, hfr, hHF, hFP, hlt.1, hlt.2, e1, e2, e3, e4]
              · have hfr := git_push_status_foreach_eq env.statuses [] false
                rw [if_neg h7] at hfr
                have hHF : hostFailureOccurs env = true := by
                  simp [hostFailureOccurs, h1, h2, addCode, hA1, h4, h5, h6, h7, e1, e2, e3, e4]
                simp [Remote_push, pushOutcomeSpec, pushDispatch, addCode, h1, h2, hA1, h4, h5, h6, hfr, hHF, e1, e2, e3, e4]
            · have h6f : env.listNewOk = false := by
                cases h : env.listNewOk
                · rfl
                · exact absurd h h6
              have hHF : hostFailureOccurs env = true := by
                simp [hostFailureOccurs, h1, h2, addCode, hA1, h4, h5, h6f, e1, e2, e3, e4]
              simp [Remote_push, pushOutcomeSpec, pushDispatch, addCode, h1, h2, hA1, h4, h5, h6f, hHF, e1, e2, e3, e4]
          · have h5f : env.unpackOk = false := by
              cases h : env.unpackOk
              · rfl
              · exact absurd h h5
            have hHF : hostFailureOccurs env = false := by
              simp [hostFailureOccurs, h1, h2, addCode, hA1, h4, h5f, e1, e2, e3, e4]
            have hFP : firstProtocolError env = none := by
              simp [firstProtocolError, h1, h2, addCode, hA1, h4, h5f, e1, e2, e3, e4]
            simp [Remote_push, pushOutcomeSpec, pushDispatch, addCode, h1, h2, hA1, h4, h5f, hHF, hFP, e1, e2, e3, e4]
        · have hlt : env.finishErr < GIT_OK ∧ env.finishErr ≠ GIT_EUSER := by
            rcases hf with h | h
            · exact absurd h h4
            · exact h
          have hHF : hostFailureOccurs env = false := by
            simp [hostFailureOccurs, h1, h2, addCode, hA1, h4, e1, e2, e3, e4]
          have hFP : firstProtocolError env = some env.finishErr := by
            simp [firstProtocolError, h1, h2, addCode, hA1, h4, e1, e2, e3, e4]
          simp [Remote_push, pushOutcomeSpec, pushDispatch, addCode, h1, h2, hA1, h4, hHF, hFP, hlt.1, hlt.2, e1, e2, e3, e4]
      · by_cases hA2 : (addRefspecs env.args).1 = GIT_EUSER
        · have hHF : hostFailureOccurs env = true := by
            simp [hostFailureOccurs, h1, h2, addCode, hA2, e1, e2, e3, e4]
          simp [Remote_push, pushOutcomeSpec, pushDispatch, addCode, h1, h2, hA1, hA2, hHF, e1, e2, e3, e4]
        · have hv : validCode (addRefspecs env.args).1 := by
            rcases addCode_cases env.args with h | h | ⟨s, hmem⟩
            · exact absurd h hA1
            · exact absurd h hA2
            · exact ha s _ hmem
          have hlt : (addRefspecs env.args).1 < GIT_OK := by
            rcases hv with h | h
            · exact absurd h hA1
            · exact h.1
          have hHF : hostFailureOccurs env = false := by
            simp [hostFailureOccurs, h1, h2, addCode, hA1, hA2, e1, e2, e3, e4]
          have hFP : firstProtocolError env = some (addRefspecs env.args).1 := by
            simp [firstProtocolError, h1, h2, addCode, hA1, hA2, e1, e2, e3, e4]
          simp [Remote_push, pushOutcomeSpec, pushDispatch, addCode, h1, h2, hA1, hA2, hHF, hFP, hlt, e1, e2, e3, e4]
    · have hlt : env.pushNewErr < GIT_OK ∧ env.pushNewErr ≠ GIT_EUSER := by
        rcases hp with h | h
        · exact absurd h h2
        · exact h
      have hHF : hostFailureOccurs env = false := by
        simp [hostFailureOccurs, h2, e1, e2, e3, e4]
      have hFP : firstProtocolError env = some env.pushNewErr := by
        simp [firstProtocolError, h1, h2, e1, e2, e3, e4]
      simp [Remote_push, pushOutcomeSpec, pushDispatch, h1, h2, hHF, hFP, hlt.1, hlt.2, e1, e2, e3, e4]
  · have hlt : env.connectErr < GIT_OK ∧ env.connectErr ≠ GIT_EUSER := by
      rcases hc with h | h
      · exact absurd h h1
      · exact h
    have hHF : hostFailureOccurs env = false := by
      simp [hostFailureOccurs, h1, e1, e2, e3, e4]
    have hFP : firstProtocolError env = some env.connectErr := by
      simp [firstProtocolError, h1, e1, e2, e3, e4]
    simp [Remote_push, pushOutcomeSpec, pushDispatch, h1, hHF, hFP, hlt.1, hlt.2, e1, e2, e3, e4]

/-- C2 witness: the refinement at a concrete all-success push. -/
theorem c2_witness :
    (Remote_push ⟨GIT_OK, GIT_OK, [], GIT_OK, true, true, [], GIT_OK⟩).outcome =
      pushOutcomeSpec ⟨GIT_OK, GIT_OK, [], GIT_OK, true, true, [], GIT_OK⟩ :=
  c2_amended_failure_precedence _ (Or.inl rfl) (Or.inl rfl) (Or.inl rfl)
    (Or.inl rfl) (fun s e hmem => absurd hmem (List.not_mem_nil _))

end Pygit2
